import Mathlib

/-!
Shallow embedding of the gbosystems/data-scripts ETL pipeline
(hospitals download/geocode script together with its `common.mjs`
helpers, the ports download script, and the airports processing
script), with theorems settling the specification claims.

Modelling conventions:
* JavaScript objects used as dictionaries are association lists
  (`Obj α`), with JS property assignment (`objSet`: update in place
  keeping the key's position, append when fresh) and property access
  (`objGet`).
* GeoJSON Point coordinates are rational numbers; `Number.prototype.toFixed(6)`
  followed by `parseFloat` is idealised as exact decimal rounding on ℚ.
* HTTP calls are oracles: a function from the call's index (the number
  of geocode calls already issued, or the page offset for the paginated
  fetcher) to the outcome of the request.  Logging and the fixed 500 ms
  delay have no effect on control flow and are dropped.
* Fallible code returns `Except`; rejected promises are `Except.error`.
-/

namespace DataScripts

/-- A JavaScript scalar value as it appears in a record's properties bag. -/
inductive JsVal where
  | str (s : String)
  | num (q : ℚ)
  | null
  | undef
deriving DecidableEq

/-- A JavaScript object used as a string-keyed dictionary. -/
abbrev Obj (α : Type) := List (String × α)

/-- JS property read: first entry with the key, `none` when absent. -/
def objGet {α : Type} (m : Obj α) (k : String) : Option α :=
  match m with
  | [] => none
  | (k', v) :: rest => if k' = k then some v else objGet rest k

/-- JS property assignment: overwrite in place when the key exists
(keeping its position, as JS objects keep insertion order), append
otherwise. -/
def objSet {α : Type} (m : Obj α) (k : String) (v : α) : Obj α :=
  match m with
  | [] => [(k, v)]
  | (k', v') :: rest => if k' = k then (k, v) :: rest else (k', v') :: objSet rest k v

/-- JS `delete obj[k]`. -/
def objDelete {α : Type} (m : Obj α) (k : String) : Obj α :=
  m.filter (fun kv => kv.1 ≠ k)

/-- A GeoJSON Point geometry `{type: "Point", coordinates: [lng, lat]}`. -/
structure Geometry where
  lng : ℚ
  lat : ℚ
deriving DecidableEq

/-- The properties bag of a feature / a raw source record. -/
abbrev Props := Obj JsVal

/-- A GeoJSON Feature as produced by the hospitals pipeline. -/
structure Feature where
  id : String
  properties : Props
  geometry : Option Geometry
deriving DecidableEq

/-- String coercion of a read property, as JS template literals perform it
(`undefined` for an absent property). -/
def jsDisplay : Option JsVal → String
  | none => "undefined"
  | some (.str s) => s
  | some (.num q) => toString q
  | some .null => "null"
  | some .undef => "undefined"

/-- `getLocationString` from the hospitals script: the Location Key
"address, citytown, state, zip_code". -/
def getLocationString (record : Props) : String :=
  jsDisplay (objGet record "address") ++ ", " ++ jsDisplay (objGet record "citytown")
    ++ ", " ++ jsDisplay (objGet record "state") ++ ", " ++ jsDisplay (objGet record "zip_code")

/-- Outcome of reading and JSON-parsing a file. -/
inductive FileState (α : Type) where
  | notFound
  | unparseable
  | ok (v : α)

/-- Errors surfaced by the file helpers. -/
inductive ReadErr where
  | ioError
  | parseError
deriving DecidableEq

/-- `readObjectFromFile` from `common.mjs`: rejects when `fs.readFile`
reports an error (file absent) and when `JSON.parse` throws. -/
def readObjectFromFile {α : Type} : FileState α → Except ReadErr α
  | .notFound => .error .ioError
  | .unparseable => .error .parseError
  | .ok v => .ok v

/-- One step of the location-index building loop in `loadExistingDataset`:
skip features with null geometry, otherwise `locations[key] = geometry`. -/
def buildLocationsStep (locations : Obj Geometry) (feature : Feature) : Obj Geometry :=
  match feature.geometry with
  | none => locations
  | some g => objSet locations (getLocationString feature.properties) g

/-- The location index derived from a prior `all.geojson` feature list. -/
def buildLocations (features : List Feature) : Obj Geometry :=
  features.foldl buildLocationsStep []

/-- The record returned by `loadExistingDataset`. -/
structure ExistingDataset where
  data : Option (List Feature)
  locations : Obj Geometry
  override : Obj Geometry
deriving DecidableEq

/-- `loadExistingDataset` from the hospitals script.  `allFile` is the
state of `all.geojson`, `overrideFile` the state of
`location-override.json`.  When `all.geojson` does not exist the
function returns empty maps; otherwise it reads both files with
`readObjectFromFile`, whose rejection propagates. -/
def loadExistingDataset (allFile : FileState (List Feature))
    (overrideFile : FileState (Obj Geometry)) : Except ReadErr ExistingDataset :=
  match allFile with
  | .notFound => .ok ⟨none, [], []⟩
  | f => do
      let all ← readObjectFromFile f
      let locations := buildLocations all
      let override ← readObjectFromFile overrideFile
      return ⟨some all, locations, override⟩

/-- The geometry the merge loop computes for one feature:
`override[feature.id] ?? locations[key]`, falling back to the feature's
current geometry when neither lookup yields a value (the loop leaves
`feature.geometry` untouched in that case). -/
def mergeGeo (existing : ExistingDataset) (feature : Feature) : Option Geometry :=
  match (objGet existing.override feature.id).or
      (objGet existing.locations (getLocationString feature.properties)) with
  | some g => some g
  | none => feature.geometry

/-- `applyExistingLocationsToIncomingData` from the hospitals script:
for each incoming feature look up the override by id, then the
location index by Location Key, and assign the geometry when a lookup
succeeded. -/
def applyExistingLocationsToIncomingData (incoming : List Feature)
    (existing : ExistingDataset) : List Feature :=
  incoming.map (fun feature =>
    match (objGet existing.override feature.id).or
        (objGet existing.locations (getLocationString feature.properties)) with
    | some geometry => { feature with geometry := some geometry }
    | none => feature)

/-! ### The live geocoding loop -/

/-- A candidate position returned by the geocoding service. -/
structure Position where
  lat : ℚ
  lng : ℚ
deriving DecidableEq

/-- The JSON body of a geocode response; `items` is `none` when the
`items` field is absent or not an array. -/
structure GeoBody where
  items : Option (List Position)
deriving DecidableEq

/-- Outcome of one HTTP geocode request: `fail` when `fetch` rejects or
`response.json()` throws, otherwise the status code and parsed body. -/
inductive HttpOutcome where
  | fail
  | resp (status : Nat) (body : GeoBody)

/-- The two kinds of exception a geocode call can raise. -/
inductive GeoErr where
  | rateLimit
  | exception
deriving DecidableEq

/-- `geocodeSingle` from the hospitals script: any transport/parse
failure is an exception; a parsed response with status 429 raises the
rate-limit error; otherwise the body is returned. -/
def geocodeSingle (outcome : HttpOutcome) : Except GeoErr GeoBody :=
  match outcome with
  | .fail => .error .exception
  | .resp status body => if status = 429 then .error .rateLimit else .ok body

/-- `geocodeRecordMax` from the hospitals script. -/
def geocodeRecordMax : Nat := 100

/-- The body of `geocodeIncomingData`'s `for` loop, threading the list of
features still to visit and the running `count` of issued calls.  The
oracle maps the index of a call (the value of `count` before the
increment) to its HTTP outcome.  Faithful to the source: features with
non-null geometry are skipped; `count` is incremented before the call;
any exception from `geocodeSingle` is caught and breaks the loop; a
non-empty `items` array assigns `[position.lng, position.lat]` verbatim;
the loop breaks once `count` reaches `geocodeRecordMax`.  A `break`
leaves the remaining features untouched.  Returns the feature list and
the final `count`. -/
def geocodeGo (oracle : Nat → HttpOutcome) : List Feature → Nat → List Feature × Nat
  | [], count => ([], count)
  | f :: rest, count =>
    match f.geometry with
    | some _ =>
        let r := geocodeGo oracle rest count
        (f :: r.1, r.2)
    | none =>
        let count1 := count + 1
        match geocodeSingle (oracle count) with
        | .error _ => (f :: rest, count1)
        | .ok body =>
            let f1 := match body.items with
              | some (item :: _) => { f with geometry := some ⟨item.lng, item.lat⟩ }
              | _ => f
            if geocodeRecordMax ≤ count1 then (f1 :: rest, count1)
            else
              let r := geocodeGo oracle rest count1
              (f1 :: r.1, r.2)

/-- `geocodeIncomingData` from the hospitals script. -/
def geocodeIncomingData (oracle : Nat → HttpOutcome) (data : List Feature) :
    List Feature × Nat :=
  geocodeGo oracle data 0

/-- Number of features whose geometry is still null. -/
def countNull (fs : List Feature) : Nat :=
  fs.countP (fun f => f.geometry.isNone)

/-- The Reconciler of `execute`: merge the existing dataset into the
incoming features, then run the live geocoding loop. -/
def reconcile (existing : ExistingDataset) (oracle : Nat → HttpOutcome)
    (incoming : List Feature) : List Feature × Nat :=
  geocodeIncomingData oracle (applyExistingLocationsToIncomingData incoming existing)

/-! ### The paginated fetcher -/

/-- One page of the paginated CMS endpoint: `{results, count}`. -/
structure Page (α : Type) where
  results : List α
  count : Nat

/-- State of `downloadHospitalList`'s loop before an iteration. -/
structure FetchState (α : Type) where
  records : List α
  offset : Nat

/-- Fuel-indexed unrolling of the `do … while (records.length < total)`
loop of `downloadHospitalList`.  The oracle maps a page offset to the
response for the request at that offset.  `none` means the loop has not
terminated within `fuel` iterations; non-termination is `none` for
every fuel. -/
def fetchGo {α : Type} (oracle : Nat → Page α) : Nat → FetchState α → Option (List α)
  | 0, _ => none
  | fuel + 1, st =>
      let response := oracle st.offset
      let records := st.records ++ response.results
      let offset := st.offset + response.results.length
      if records.length < response.count then
        fetchGo oracle fuel ⟨records, offset⟩
      else
        some records

/-- `downloadHospitalList` from the hospitals script, starting at offset
0 with no records. -/
def downloadHospitalList {α : Type} (oracle : Nat → Page α) (fuel : Nat) : Option (List α) :=
  fetchGo oracle fuel ⟨[], 0⟩

/-! ### groupBy and the per-value file writes -/

/-- The body of `groupBy`'s loop from `common.mjs`: append the item to
the group of its key (`result[key]` is created on first use, and an
existing group is pushed to in place). -/
def groupByStep {α : Type} (selector : α → String) (result : Obj (List α)) (item : α) :
    Obj (List α) :=
  let key := selector item
  match objGet result key with
  | some group => objSet result key (group ++ [item])
  | none => result ++ [(key, [item])]

/-- `groupBy` from `common.mjs`. -/
def groupBy {α : Type} (array : List α) (selector : α → String) : Obj (List α) :=
  array.foldl (groupByStep selector) []

/-- The filter `execute` applies before grouping by property `prop`:
`typeof s.properties[prop] === "string"`. -/
def hasStringProp (prop : String) (f : Feature) : Bool :=
  match objGet f.properties prop with
  | some (.str _) => true
  | _ => false

/-- The selector `s => s.properties[prop]`, coerced to a string the way
JS coerces object keys (identity on the string-typed values that
survive the filter). -/
def propKey (prop : String) (f : Feature) : String :=
  jsDisplay (objGet f.properties prop)

/-- The grouping `execute` performs for one property. -/
def groupFeatures (prop : String) (features : List Feature) : Obj (List Feature) :=
  groupBy (features.filter (hasStringProp prop)) (propKey prop)

/-- `String.prototype.toLowerCase()` modelled characterwise (the data
sets only hold ASCII values, for which JS and Unicode simple lowercase
mappings agree). -/
def jsToLowerCase (s : String) : String :=
  ⟨s.data.map Char.toLower⟩

/-- The file name used for a group: `` `${key.toLowerCase()}.geojson` ``. -/
def groupFileName (key : String) : String :=
  jsToLowerCase key ++ ".geojson"

/-- The per-value write loop of `execute`, modelled as the final state of
the output directory: writing to an existing path overwrites it. -/
def writeGroupedFiles (groups : Obj (List Feature)) : Obj (List Feature) :=
  groups.foldl (fun disk kv => objSet disk (groupFileName kv.1) kv.2) []

/-! ### The feature normalizers -/

/-- Idealisation of `parseFloat(x.toFixed(6))`: exact rounding to 6
decimal places on ℚ. -/
def roundTo6 (q : ℚ) : ℚ :=
  (round (q * 1000000) : ℚ) / 1000000

namespace Hospitals

/-- `toGeoJsonFeature` from the hospitals script: id from
`record.facility_id` (a string in this dataset; the JS value is used as
an object key later, hence the string coercion here), properties the
record itself, geometry null.  The second component is the record
object after the call — this normalizer performs no mutation. -/
def toGeoJsonFeature (record : Props) : Feature × Props :=
  ({ id := jsDisplay (objGet record "facility_id"), properties := record, geometry := none },
   record)

end Hospitals

/-- The raw port record fields used by the ports normalizer; the
remaining properties do not affect any claim. -/
structure PortRecord where
  globalId : String
  xcoord : ℚ
  ycoord : ℚ
deriving DecidableEq

/-- A GeoJSON Feature of the ports dataset. -/
structure PortFeature where
  id : String
  properties : PortRecord
  geometry : Option Geometry
deriving DecidableEq

namespace Ports

/-- `toGeoJsonFeature` from `download-ports.mjs`: id strips the first and
last character of `globalId` (`substr(1, length - 2)`), coordinates are
`parseFloat(coord.toFixed(6))`. -/
def toGeoJsonFeature (port : PortRecord) : PortFeature :=
  { id := (port.globalId.drop 1).dropRight 1
    properties := port
    geometry := some ⟨roundTo6 port.xcoord, roundTo6 port.ycoord⟩ }

end Ports

/-- An airports feature: `record.id` may be any JS value (or absent). -/
structure AirportFeature where
  id : Option JsVal
  properties : Props
  geometry : Option Geometry
deriving DecidableEq

namespace Airports

/-- `toGeoJsonFeature` from `process-airports.mjs`.  `parseNum` stands
for the host `parseFloat` primitive (string-to-number parsing is outside
the embedding).  The function reads id and coordinates, then mutates the
input record: it deletes `id`, `latitude_deg` and `longitude_deg`, and
deletes every remaining key whose value is `null` or `""`.  The second
component is the record object after the call; the returned feature's
properties alias that mutated record. -/
def toGeoJsonFeature (parseNum : Option JsVal → ℚ) (record : Props) :
    AirportFeature × Props :=
  let id := objGet record "id"
  let lat := roundTo6 (parseNum (objGet record "latitude_deg"))
  let lon := roundTo6 (parseNum (objGet record "longitude_deg"))
  let r1 := objDelete (objDelete (objDelete record "id") "latitude_deg") "longitude_deg"
  let r2 := r1.filter (fun kv => !(kv.2 == JsVal.null || kv.2 == JsVal.str ""))
  ({ id := id, properties := r2, geometry := some ⟨lon, lat⟩ }, r2)

end Airports

/-! ### Geocode-loop lemmas -/

/-- The feature resulting from processing one successful geocode
response: the first candidate's position when the `items` array is
non-empty, the feature unchanged otherwise. -/
def applyCandidate (f : Feature) (body : GeoBody) : Feature :=
  match body.items with
  | some (item :: _) => { f with geometry := some ⟨item.lng, item.lat⟩ }
  | _ => f

/-! ## Theorems -/

theorem applyExisting_eq_map_mergeGeo (incoming : List Feature) (existing : ExistingDataset) :
    applyExistingLocationsToIncomingData incoming existing
      = incoming.map (fun f => { f with geometry := mergeGeo existing f }) := by
  unfold applyExistingLocationsToIncomingData mergeGeo
  refine List.map_congr_left (fun f _ => ?_)
  cases h : (objGet existing.override f.id).or
      (objGet existing.locations (getLocationString f.properties)) <;> simp

theorem applyExisting_length (incoming : List Feature) (existing : ExistingDataset) :
    (applyExistingLocationsToIncomingData incoming existing).length = incoming.length := by
  rw [applyExisting_eq_map_mergeGeo]; exact List.length_map _ _

/-! ### Dictionary lemmas -/

theorem objGet_objSet_self {α : Type} (m : Obj α) (k : String) (v : α) :
    objGet (objSet m k v) k = some v := by
  induction m with
  | nil => simp [objSet, objGet]
  | cons kv rest ih =>
      by_cases h : kv.1 = k
      · simp [objSet, h, objGet]
      · simp only [objSet, h, if_false]
        simpa [objGet, h] using ih

theorem objGet_objSet_ne {α : Type} (m : Obj α) (k k' : String) (v : α) (h : k ≠ k') :
    objGet (objSet m k v) k' = objGet m k' := by
  induction m with
  | nil => simp [objSet, objGet, h]
  | cons kv rest ih =>
      by_cases hk : kv.1 = k
      · simp [objSet, hk, objGet, h, hk ▸ h]
      · simp only [objSet, hk, if_false]
        by_cases hk' : kv.1 = k'
        · simp [objGet, hk']
        · simpa [objGet, hk'] using ih

theorem objGet_eq_none_iff {α : Type} (m : Obj α) (k : String) :
    objGet m k = none ↔ k ∉ m.map Prod.fst := by
  induction m with
  | nil => simp [objGet]
  | cons kv rest ih =>
      by_cases h : kv.1 = k
      · simp [objGet, h]
      · simp [objGet, h, ih, Ne.symm h]

theorem objGet_mem {α : Type} (m : Obj α) (k : String) (v : α) :
    objGet m k = some v → (k, v) ∈ m := by
  induction m with
  | nil => simp [objGet]
  | cons kv rest ih =>
      obtain ⟨k1, v1⟩ := kv
      by_cases h : k1 = k
      · intro hv
        simp only [objGet, h, if_true] at hv
        subst h
        obtain rfl := Option.some.inj hv
        exact List.mem_cons_self _ _
      · intro hv
        simp only [objGet, h, if_false] at hv
        exact List.mem_cons_of_mem _ (ih hv)

theorem mem_objSet {α : Type} (m : Obj α) (k : String) (v : α) (x : String × α) :
    x ∈ objSet m k v → x = (k, v) ∨ x ∈ m := by
  induction m with
  | nil => simp [objSet]
  | cons kv rest ih =>
      by_cases h : kv.1 = k
      · simp only [objSet, h, if_true]
        intro hx
        rcases List.mem_cons.mp hx with h1 | h1
        · exact Or.inl h1
        · exact Or.inr (List.mem_cons_of_mem _ h1)
      · simp only [objSet, h, if_false]
        intro hx
        rcases List.mem_cons.mp hx with h1 | h1
        · exact Or.inr (h1 ▸ List.mem_cons_self _ _)
        · rcases ih h1 with h2 | h2
          · exact Or.inl h2
          · exact Or.inr (List.mem_cons_of_mem _ h2)

theorem objSet_of_not_mem {α : Type} (m : Obj α) (k : String) (v : α)
    (h : k ∉ m.map Prod.fst) : objSet m k v = m ++ [(k, v)] := by
  induction m with
  | nil => simp [objSet]
  | cons kv rest ih =>
      simp only [List.map_cons, List.mem_cons] at h
      push_neg at h
      simp [objSet, Ne.symm h.1, ih h.2]

theorem keys_objSet_of_mem {α : Type} (m : Obj α) (k : String) (v : α)
    (h : objGet m k ≠ none) : (objSet m k v).map Prod.fst = m.map Prod.fst := by
  induction m with
  | nil => simp [objGet] at h
  | cons kv rest ih =>
      by_cases hk : kv.1 = k
      · simp [objSet, hk]
      · simp only [objGet, hk, if_false] at h
        simp [objSet, hk, ih h]

theorem applyCandidate_frame (f : Feature) (body : GeoBody) :
    ∃ og, applyCandidate f body = { f with geometry := og } := by
  unfold applyCandidate
  rcases body with ⟨_ | ⟨_ | ⟨item, tl⟩⟩⟩
  · exact ⟨f.geometry, rfl⟩
  · exact ⟨f.geometry, rfl⟩
  · exact ⟨some ⟨item.lng, item.lat⟩, rfl⟩

theorem geocodeGo_nil (oracle : Nat → HttpOutcome) (c : Nat) :
    geocodeGo oracle [] c = ([], c) := rfl

theorem geocodeGo_cons_skip (oracle : Nat → HttpOutcome) (f : Feature) (rest : List Feature)
    (c : Nat) (g : Geometry) (hg : f.geometry = some g) :
    geocodeGo oracle (f :: rest) c
      = (f :: (geocodeGo oracle rest c).1, (geocodeGo oracle rest c).2) := by
  simp [geocodeGo, hg]

theorem geocodeGo_cons_err (oracle : Nat → HttpOutcome) (f : Feature) (rest : List Feature)
    (c : Nat) (e : GeoErr) (hg : f.geometry = none)
    (hs : geocodeSingle (oracle c) = .error e) :
    geocodeGo oracle (f :: rest) c = (f :: rest, c + 1) := by
  simp [geocodeGo, hg, hs]

theorem geocodeGo_cons_ok_break (oracle : Nat → HttpOutcome) (f : Feature)
    (rest : List Feature) (c : Nat) (body : GeoBody) (hg : f.geometry = none)
    (hs : geocodeSingle (oracle c) = .ok body) (hc : geocodeRecordMax ≤ c + 1) :
    geocodeGo oracle (f :: rest) c = (applyCandidate f body :: rest, c + 1) := by
  simp [geocodeGo, hg, hs, hc, applyCandidate]

theorem geocodeGo_cons_ok_cont (oracle : Nat → HttpOutcome) (f : Feature)
    (rest : List Feature) (c : Nat) (body : GeoBody) (hg : f.geometry = none)
    (hs : geocodeSingle (oracle c) = .ok body) (hc : ¬ geocodeRecordMax ≤ c + 1) :
    geocodeGo oracle (f :: rest) c
      = (applyCandidate f body :: (geocodeGo oracle rest (c + 1)).1,
         (geocodeGo oracle rest (c + 1)).2) := by
  simp [geocodeGo, hg, hs, hc, applyCandidate]

theorem geocodeGo_length (oracle : Nat → HttpOutcome) :
    ∀ (fs : List Feature) (c : Nat), (geocodeGo oracle fs c).1.length = fs.length := by
  intro fs
  induction fs with
  | nil => intro c; rfl
  | cons f rest ih =>
      intro c
      cases hg : f.geometry with
      | some g => rw [geocodeGo_cons_skip oracle f rest c g hg]; simp [ih]
      | none =>
          cases hs : geocodeSingle (oracle c) with
          | error e => rw [geocodeGo_cons_err oracle f rest c e hg hs]
          | ok body =>
              by_cases hc : geocodeRecordMax ≤ c + 1
              · rw [geocodeGo_cons_ok_break oracle f rest c body hg hs hc]; simp
              · rw [geocodeGo_cons_ok_cont oracle f rest c body hg hs hc]; simp [ih]

theorem geocodeGo_get? (oracle : Nat → HttpOutcome) :
    ∀ (fs : List Feature) (c i : Nat) (f : Feature), fs[i]? = some f →
      ∃ og, (geocodeGo oracle fs c).1[i]? = some { f with geometry := og }
        ∧ (f.geometry.isSome → og = f.geometry) := by
  intro fs
  induction fs with
  | nil => intro c i f hf; simp at hf
  | cons f0 rest ih =>
      intro c i f hf
      cases hg : f0.geometry with
      | some g =>
          rw [geocodeGo_cons_skip oracle f0 rest c g hg]
          cases i with
          | zero =>
              obtain rfl := Option.some.inj (by simpa using hf : some f0 = some f)
              exact ⟨f0.geometry, by simp, fun _ => rfl⟩
          | succ j =>
              simp only [List.getElem?_cons_succ] at hf ⊢
              exact ih c j f hf
      | none =>
          cases hs : geocodeSingle (oracle c) with
          | error e =>
              rw [geocodeGo_cons_err oracle f0 rest c e hg hs]
              exact ⟨f.geometry, by simpa using hf, fun _ => rfl⟩
          | ok body =>
              by_cases hc : geocodeRecordMax ≤ c + 1
              · rw [geocodeGo_cons_ok_break oracle f0 rest c body hg hs hc]
                cases i with
                | zero =>
                    obtain rfl := Option.some.inj (by simpa using hf : some f0 = some f)
                    obtain ⟨og, hog⟩ := applyCandidate_frame f0 body
                    exact ⟨og, by simp [hog], fun hsm => absurd hsm (by simp [hg])⟩
                | succ j =>
                    simp only [List.getElem?_cons_succ] at hf ⊢
                    exact ⟨f.geometry, by simpa using hf, fun _ => rfl⟩
              · rw [geocodeGo_cons_ok_cont oracle f0 rest c body hg hs hc]
                cases i with
                | zero =>
                    obtain rfl := Option.some.inj (by simpa using hf : some f0 = some f)
                    obtain ⟨og, hog⟩ := applyCandidate_frame f0 body
                    exact ⟨og, by simp [hog], fun hsm => absurd hsm (by simp [hg])⟩
                | succ j =>
                    simp only [List.getElem?_cons_succ] at hf ⊢
                    exact ih (c + 1) j f hf

theorem geocodeGo_count_le (oracle : Nat → HttpOutcome) :
    ∀ (fs : List Feature) (c : Nat), c < geocodeRecordMax →
      (geocodeGo oracle fs c).2 ≤ geocodeRecordMax := by
  intro fs
  induction fs with
  | nil => intro c hc; exact Nat.le_of_lt hc
  | cons f rest ih =>
      intro c hc
      cases hg : f.geometry with
      | some g => rw [geocodeGo_cons_skip oracle f rest c g hg]; exact ih c hc
      | none =>
          cases hs : geocodeSingle (oracle c) with
          | error e => rw [geocodeGo_cons_err oracle f rest c e hg hs]; omega
          | ok body =>
              by_cases hcc : geocodeRecordMax ≤ c + 1
              · rw [geocodeGo_cons_ok_break oracle f rest c body hg hs hcc]; omega
              · rw [geocodeGo_cons_ok_cont oracle f rest c body hg hs hcc]
                exact ih (c + 1) (by omega)

theorem geocodeGo_countNull (oracle : Nat → HttpOutcome) :
    ∀ (fs : List Feature) (c : Nat),
      countNull fs + c ≤ (geocodeGo oracle fs c).2 + countNull (geocodeGo oracle fs c).1 := by
  intro fs
  induction fs with
  | nil => intro c; simp [geocodeGo_nil, countNull]
  | cons f rest ih =>
      intro c
      cases hg : f.geometry with
      | some g =>
          rw [geocodeGo_cons_skip oracle f rest c g hg]
          have h1 := ih c
          simp only [countNull, List.countP_cons, hg] at h1 ⊢
          simp only [Option.isNone_some]
          omega
      | none =>
          cases hs : geocodeSingle (oracle c) with
          | error e =>
              rw [geocodeGo_cons_err oracle f rest c e hg hs]
              simp [countNull, List.countP_cons, hg]
              omega
          | ok body =>
              by_cases hcc : geocodeRecordMax ≤ c + 1
              · rw [geocodeGo_cons_ok_break oracle f rest c body hg hs hcc]
                simp [countNull, List.countP_cons, hg]
                omega
              · rw [geocodeGo_cons_ok_cont oracle f rest c body hg hs hcc]
                have h1 := ih (c + 1)
                simp [countNull, List.countP_cons, hg] at h1 ⊢
                omega

theorem geocodeGo_all_some (oracle : Nat → HttpOutcome) :
    ∀ (fs : List Feature) (c : Nat), (∀ f ∈ fs, f.geometry.isSome) →
      geocodeGo oracle fs c = (fs, c) := by
  intro fs
  induction fs with
  | nil => intro c _; rfl
  | cons f rest ih =>
      intro c hall
      have hf := hall f (List.mem_cons_self _ _)
      obtain ⟨g, hg⟩ := Option.isSome_iff_exists.mp hf
      rw [geocodeGo_cons_skip oracle f rest c g hg,
        ih c (fun x hx => hall x (List.mem_cons_of_mem _ hx))]

theorem geocodeGo_no_candidates (oracle : Nat → HttpOutcome)
    (hor : ∀ n body, geocodeSingle (oracle n) = .ok body → body.items.getD [] = []) :
    ∀ (fs : List Feature) (c : Nat), (geocodeGo oracle fs c).1 = fs := by
  intro fs
  induction fs with
  | nil => intro c; rfl
  | cons f rest ih =>
      intro c
      cases hg : f.geometry with
      | some g => rw [geocodeGo_cons_skip oracle f rest c g hg]; simp [ih]
      | none =>
          cases hs : geocodeSingle (oracle c) with
          | error e => rw [geocodeGo_cons_err oracle f rest c e hg hs]
          | ok body =>
              have hb : applyCandidate f body = f := by
                have := hor c body hs
                unfold applyCandidate
                rcases body with ⟨_ | ⟨_ | ⟨item, tl⟩⟩⟩
                · rfl
                · rfl
                · simp [Option.getD] at this
              by_cases hcc : geocodeRecordMax ≤ c + 1
              · rw [geocodeGo_cons_ok_break oracle f rest c body hg hs hcc, hb]
              · rw [geocodeGo_cons_ok_cont oracle f rest c body hg hs hcc, hb]
                simp [ih]

theorem roundTo6_idem (q : ℚ) : roundTo6 (roundTo6 q) = roundTo6 q := by
  unfold roundTo6
  rw [div_mul_cancel₀ _ (by norm_num : (1000000 : ℚ) ≠ 0), round_intCast]

/-! ## Claims -/

/-- Claim C1 (confirmed).  Override precedence: an incoming Feature with
null geometry whose id is in the Override Map and whose Location Key is
also in the prior-dataset location index receives the override
geometry from the merge step, never the location-index geometry. -/
theorem C1_override_precedence (incoming : List Feature) (existing : ExistingDataset)
    (i : Nat) (f : Feature) (g g2 : Geometry)
    (hf : incoming[i]? = some f)
    (_hnull : f.geometry = none)
    (hov : objGet existing.override f.id = some g)
    (_hloc : objGet existing.locations (getLocationString f.properties) = some g2) :
    (applyExistingLocationsToIncomingData incoming existing)[i]?
      = some { f with geometry := some g } := by
  rw [applyExisting_eq_map_mergeGeo, List.getElem?_map, hf]
  simp [mergeGeo, hov, Option.or]

theorem C1_override_precedence_witness :
    (([⟨"A", [("address", .str "1 Main")], none⟩] : List Feature)[0]?
        = some ⟨"A", [("address", .str "1 Main")], none⟩
      ∧ objGet ([("A", ⟨1, 2⟩)] : Obj Geometry) "A" = some ⟨1, 2⟩
      ∧ objGet ([(getLocationString [("address", .str "1 Main")], ⟨3, 4⟩)] : Obj Geometry)
          (getLocationString [("address", .str "1 Main")]) = some ⟨3, 4⟩)
    ∧ (applyExistingLocationsToIncomingData [⟨"A", [("address", .str "1 Main")], none⟩]
        ⟨none, [(getLocationString [("address", .str "1 Main")], ⟨3, 4⟩)], [("A", ⟨1, 2⟩)]⟩)[0]?
      = some ⟨"A", [("address", .str "1 Main")], some ⟨1, 2⟩⟩ :=
  ⟨⟨by decide, by decide, by decide⟩,
   C1_override_precedence [⟨"A", [("address", .str "1 Main")], none⟩]
     ⟨none, [(getLocationString [("address", .str "1 Main")], ⟨3, 4⟩)], [("A", ⟨1, 2⟩)]⟩
     0 ⟨"A", [("address", .str "1 Main")], none⟩ ⟨1, 2⟩ ⟨3, 4⟩
     (by decide) (by decide) (by decide) (by decide)⟩

/-- Claim C2 (confirmed).  Budget enforcement: when more than
`geocodeRecordMax` features are unresolved after the merge, the
geocoding loop issues at most `geocodeRecordMax` remote calls and at
least `N - geocodeRecordMax` features still have null geometry at the
end of the run. -/
theorem C2_budget_enforcement (oracle : Nat → HttpOutcome) (data : List Feature)
    (hN : geocodeRecordMax < countNull data) :
    (geocodeIncomingData oracle data).2 ≤ geocodeRecordMax
    ∧ countNull data - geocodeRecordMax ≤ countNull (geocodeIncomingData oracle data).1 := by
  have h1 := geocodeGo_countNull oracle data 0
  have h2 := geocodeGo_count_le oracle data 0 (by norm_num [geocodeRecordMax])
  unfold geocodeIncomingData
  exact ⟨h2, by omega⟩

set_option maxRecDepth 8000 in
theorem C2_budget_enforcement_witness :
    geocodeRecordMax < countNull (List.replicate 101 (⟨"x", [], none⟩ : Feature))
    ∧ ((geocodeIncomingData (fun _ => HttpOutcome.resp 200 ⟨some []⟩)
          (List.replicate 101 (⟨"x", [], none⟩ : Feature))).2 ≤ geocodeRecordMax
        ∧ countNull (List.replicate 101 (⟨"x", [], none⟩ : Feature)) - geocodeRecordMax
            ≤ countNull (geocodeIncomingData (fun _ => HttpOutcome.resp 200 ⟨some []⟩)
                (List.replicate 101 (⟨"x", [], none⟩ : Feature))).1) :=
  ⟨by decide, C2_budget_enforcement _ _ (by decide)⟩

/-- Claim C3 (confirmed).  No-regression: for any feature of the
incoming list, the merge step assigns a geometry only when a lookup
succeeded (it never sets a geometry back to null), and the geocoding
loop leaves every already-resolved feature exactly as it was; hence a
feature resolved at any point stays resolved to the end of the run. -/
theorem C3_no_regression (existing : ExistingDataset) (oracle : Nat → HttpOutcome)
    (incoming : List Feature) (i : Nat) (f : Feature)
    (hf : incoming[i]? = some f) :
    ∃ fm ff,
      (applyExistingLocationsToIncomingData incoming existing)[i]? = some fm
      ∧ (geocodeIncomingData oracle
          (applyExistingLocationsToIncomingData incoming existing)).1[i]? = some ff
      ∧ (f.geometry.isSome → fm.geometry.isSome)
      ∧ (fm.geometry = none → f.geometry = none)
      ∧ (fm.geometry.isSome → ff = fm)
      ∧ (fm.geometry.isSome → ff.geometry.isSome) := by
  have hm : (applyExistingLocationsToIncomingData incoming existing)[i]?
      = some { f with geometry := mergeGeo existing f } := by
    rw [applyExisting_eq_map_mergeGeo, List.getElem?_map, hf]; rfl
  obtain ⟨og, hgo, hpres⟩ := geocodeGo_get? oracle
    (applyExistingLocationsToIncomingData incoming existing) 0 i _ hm
  refine ⟨{ f with geometry := mergeGeo existing f },
    { f with geometry := og }, hm, hgo, ?_, ?_, ?_, ?_⟩
  · intro hsome
    unfold mergeGeo
    cases h : (objGet existing.override f.id).or
        (objGet existing.locations (getLocationString f.properties)) with
    | none => simpa [h] using hsome
    | some g => simp [h]
  · intro hnone
    unfold mergeGeo at hnone
    revert hnone
    cases h : (objGet existing.override f.id).or
        (objGet existing.locations (getLocationString f.properties)) <;> simp
  · intro hsome
    have := hpres hsome
    simp only at this
    rw [this]
  · intro hsome
    have := hpres hsome
    simp only at this
    rw [this]
    exact hsome

theorem C3_no_regression_witness :
    (([⟨"A", [], some ⟨1, 1⟩⟩] : List Feature)[0]? = some ⟨"A", [], some ⟨1, 1⟩⟩)
    ∧ ∃ fm ff,
      (applyExistingLocationsToIncomingData [⟨"A", [], some ⟨1, 1⟩⟩] ⟨none, [], []⟩)[0]? = some fm
      ∧ (geocodeIncomingData (fun _ => HttpOutcome.fail)
          (applyExistingLocationsToIncomingData [⟨"A", [], some ⟨1, 1⟩⟩] ⟨none, [], []⟩)).1[0]?
            = some ff
      ∧ ((⟨"A", [], some ⟨1, 1⟩⟩ : Feature).geometry.isSome → fm.geometry.isSome)
      ∧ (fm.geometry = none → (⟨"A", [], some ⟨1, 1⟩⟩ : Feature).geometry = none)
      ∧ (fm.geometry.isSome → ff = fm)
      ∧ (fm.geometry.isSome → ff.geometry.isSome) :=
  ⟨by decide, C3_no_regression ⟨none, [], []⟩ (fun _ => HttpOutcome.fail) _ 0 _ (by decide)⟩

/-- Claim C5 (code_bug).  Behaviour of the Existing-Dataset Loader on
missing and unparseable inputs: a missing `all.geojson` yields empty
maps without error, and an unparseable file that is present fails —
but, contrary to the claim, a missing override file with `all.geojson`
present also fails the run: `readObjectFromFile` rejects with the
`fs.readFile` error and `loadExistingDataset` propagates it. -/
theorem C5_loader_missing_override :
    loadExistingDataset (FileState.ok [⟨"A", [], none⟩]) FileState.notFound
      = .error .ioError
    ∧ loadExistingDataset FileState.notFound
        (FileState.notFound (α := Obj Geometry)) = .ok ⟨none, [], []⟩
    ∧ loadExistingDataset FileState.notFound
        (FileState.ok ([("A", ⟨1, 2⟩)] : Obj Geometry)) = .ok ⟨none, [], []⟩
    ∧ loadExistingDataset (FileState.unparseable (α := List Feature))
        (FileState.ok ([] : Obj Geometry)) = .error .parseError
    ∧ loadExistingDataset (FileState.ok [⟨"A", [], none⟩])
        (FileState.unparseable (α := Obj Geometry)) = .error .parseError :=
  ⟨rfl, rfl, rfl, rfl, rfl⟩

/-- Claim C6 (corrected).  Every exception raised by a single live
geocode call — the rate-limit error and any other exception alike — is
caught inside the loop: the loop stops, the remaining features are
left untouched, and the function returns normally (so the rest of the
pipeline proceeds); no exception propagates out of the Reconciler. -/
theorem C6_errors_handled_locally (oracle : Nat → HttpOutcome) (f : Feature)
    (rest : List Feature) (c : Nat) (e : GeoErr)
    (hg : f.geometry = none) (hs : geocodeSingle (oracle c) = .error e) :
    geocodeGo oracle (f :: rest) c = (f :: rest, c + 1) :=
  geocodeGo_cons_err oracle f rest c e hg hs

theorem C6_errors_handled_locally_witness :
    ((⟨"A", [], none⟩ : Feature).geometry = none
      ∧ geocodeSingle ((fun _ => HttpOutcome.fail) 0) = .error .exception)
    ∧ geocodeGo (fun _ => HttpOutcome.fail)
        [⟨"A", [], none⟩, ⟨"B", [], none⟩] 0
      = ([⟨"A", [], none⟩, ⟨"B", [], none⟩], 1) :=
  ⟨⟨rfl, rfl⟩,
   C6_errors_handled_locally (fun _ => HttpOutcome.fail) _ _ 0 .exception rfl rfl⟩

/-- Claim C6, counterexample to the claim as stated: a non-rate-limit
failure (`fetch` rejection / JSON parse failure) during the first
geocode call does not abort the run — the loop catches it and returns
normally with the remaining features untouched, exactly as it does for
a rate-limit (HTTP 429) error. -/
theorem C6_counterexample :
    geocodeIncomingData (fun _ => HttpOutcome.fail)
        [⟨"A", [], none⟩, ⟨"B", [], none⟩]
      = ([⟨"A", [], none⟩, ⟨"B", [], none⟩], 1)
    ∧ geocodeIncomingData (fun _ => HttpOutcome.resp 429 ⟨some []⟩)
        [⟨"A", [], none⟩, ⟨"B", [], none⟩]
      = ([⟨"A", [], none⟩, ⟨"B", [], none⟩], 1) :=
  ⟨rfl, rfl⟩

/-- Claim C8 (corrected).  Geometries assigned at normalization time
from source-supplied coordinates (ports normalizer) are rounded to 6
decimal places; but a geometry assigned by the Reconciler from a live
geocode candidate is taken verbatim from the response position, with
no rounding applied. -/
theorem C8_rounding (port : PortRecord) (oracle : Nat → HttpOutcome)
    (f : Feature) (rest : List Feature) (c : Nat) (body : GeoBody)
    (item : Position) (tl : List Position)
    (hg : f.geometry = none) (hs : geocodeSingle (oracle c) = .ok body)
    (hitems : body.items = some (item :: tl)) :
    ((Ports.toGeoJsonFeature port).geometry
        = some ⟨roundTo6 port.xcoord, roundTo6 port.ycoord⟩
      ∧ roundTo6 (roundTo6 port.xcoord) = roundTo6 port.xcoord
      ∧ roundTo6 (roundTo6 port.ycoord) = roundTo6 port.ycoord)
    ∧ (geocodeGo oracle (f :: rest) c).1[0]?
        = some { f with geometry := some ⟨item.lng, item.lat⟩ } := by
  refine ⟨⟨rfl, roundTo6_idem _, roundTo6_idem _⟩, ?_⟩
  have hb : applyCandidate f body = { f with geometry := some ⟨item.lng, item.lat⟩ } := by
    unfold applyCandidate
    rw [hitems]
  by_cases hc : geocodeRecordMax ≤ c + 1
  · rw [geocodeGo_cons_ok_break oracle f rest c body hg hs hc, hb]
    simp
  · rw [geocodeGo_cons_ok_cont oracle f rest c body hg hs hc, hb]
    simp

theorem C8_rounding_witness :
    ((⟨"A", [], none⟩ : Feature).geometry = none
      ∧ geocodeSingle ((fun _ => HttpOutcome.resp 200 ⟨some [⟨0, 1/3⟩]⟩) 0)
          = .ok ⟨some [⟨0, 1/3⟩]⟩
      ∧ (⟨some [⟨0, 1/3⟩]⟩ : GeoBody).items = some [⟨0, 1/3⟩])
    ∧ ((Ports.toGeoJsonFeature ⟨"(X)", 1/3, 2⟩).geometry
        = some ⟨roundTo6 (1/3), roundTo6 2⟩
      ∧ roundTo6 (roundTo6 ((⟨"(X)", 1/3, 2⟩ : PortRecord).xcoord))
          = roundTo6 ((⟨"(X)", 1/3, 2⟩ : PortRecord).xcoord)
      ∧ roundTo6 (roundTo6 ((⟨"(X)", 1/3, 2⟩ : PortRecord).ycoord))
          = roundTo6 ((⟨"(X)", 1/3, 2⟩ : PortRecord).ycoord))
    ∧ (geocodeGo (fun _ => HttpOutcome.resp 200 ⟨some [⟨0, 1/3⟩]⟩)
        [(⟨"A", [], none⟩ : Feature)] 0).1[0]?
      = some ⟨"A", [], some ⟨1/3, 0⟩⟩ :=
  ⟨⟨rfl, rfl, rfl⟩,
   C8_rounding ⟨"(X)", 1/3, 2⟩ (fun _ => HttpOutcome.resp 200 ⟨some [⟨0, 1/3⟩]⟩)
     ⟨"A", [], none⟩ [] 0 ⟨some [⟨0, 1/3⟩]⟩ ⟨0, 1/3⟩ [] rfl rfl rfl⟩

/-- Claim C8, counterexample to the claim as stated: the Reconciler
assigns the live geocode candidate's position 1/3 verbatim, and 1/3 is
not a value rounded to 6 decimal places. -/
theorem C8_counterexample :
    (geocodeIncomingData (fun _ => HttpOutcome.resp 200 ⟨some [⟨0, 1/3⟩]⟩)
        [(⟨"A", [], none⟩ : Feature)]).1
      = [⟨"A", [], some ⟨1/3, 0⟩⟩]
    ∧ roundTo6 (1/3) ≠ (1/3 : ℚ) := by
  refine ⟨rfl, ?_⟩
  unfold roundTo6
  rw [round_eq]
  norm_num

/-! ### Dictionary lemmas for the normalizer claims -/

theorem objGet_objDelete {α : Type} (m : Obj α) (k0 k : String) :
    objGet (objDelete m k0) k = if k = k0 then none else objGet m k := by
  induction m with
  | nil => simp [objDelete, objGet]
  | cons kv rest ih =>
      obtain ⟨k1, v1⟩ := kv
      by_cases h0 : k1 = k0
      · have : objDelete ((k1, v1) :: rest) k0 = objDelete rest k0 := by
          simp [objDelete, h0]
        rw [this, ih]
        by_cases hk : k = k0
        · simp [hk]
        · have : k1 ≠ k := fun he => hk (he ▸ h0.symm ▸ rfl)
          simp [hk, objGet, this]
      · have : objDelete ((k1, v1) :: rest) k0 = (k1, v1) :: objDelete rest k0 := by
          simp [objDelete, h0]
        rw [this]
        by_cases h1 : k1 = k
        · have hk : k ≠ k0 := fun he => h0 (h1.symm ▸ he)
          simp [objGet, h1, hk]
        · simp [objGet, h1, ih]

theorem objGet_filter_none {α : Type} (m : Obj α) (p : String × α → Bool) (k : String)
    (h : objGet m k = none) : objGet (m.filter p) k = none := by
  induction m with
  | nil => simp [objGet]
  | cons kv rest ih =>
      obtain ⟨k1, v1⟩ := kv
      by_cases h1 : k1 = k
      · simp [objGet, h1] at h
      · simp only [objGet, h1, if_false] at h
        by_cases hp : p (k1, v1)
        · simp only [List.filter_cons, hp, if_true]
          simpa [objGet, h1] using ih h
        · simp only [List.filter_cons, hp]
          simpa using ih h

theorem objGet_filter_val {α : Type} (m : Obj α) (p : α → Bool) (k : String)
    (hnd : (m.map Prod.fst).Nodup) :
    objGet (m.filter (fun kv => p kv.2)) k
      = match objGet m k with
        | some v => if p v then some v else none
        | none => none := by
  induction m with
  | nil => simp [objGet]
  | cons kv rest ih =>
      obtain ⟨k1, v1⟩ := kv
      simp only [List.map_cons, List.nodup_cons] at hnd
      obtain ⟨hk1, hndr⟩ := hnd
      by_cases h1 : k1 = k
      · subst h1
        by_cases hp : p v1
        · simp [objGet, List.filter_cons, hp]
        · have hnone : objGet rest k1 = none := (objGet_eq_none_iff rest k1).mpr hk1
          have hfil : List.filter (fun kv => p kv.2) ((k1, v1) :: rest)
              = List.filter (fun kv => p kv.2) rest := by
            simp [List.filter_cons, hp]
          rw [hfil, objGet_filter_none rest _ k1 hnone]
          simp [objGet, hp]
      · by_cases hp : p (k1, v1).2
        · simp only [List.filter_cons, hp, if_true]
          simp only [objGet, h1, if_false]
          exact ih hndr
        · simp only [List.filter_cons, hp]
          simp only [objGet, h1, if_false]
          simpa using ih hndr

theorem keys_objDelete_sublist {α : Type} (m : Obj α) (k0 : String) :
    ((objDelete m k0).map Prod.fst).Sublist (m.map Prod.fst) :=
  (List.filter_sublist m).map Prod.fst

/-- Claim C9 (corrected).  Both normalizers are deterministic (they are
functions of the record alone).  The hospitals normalizer leaves the
input record unchanged; the airports normalizer, however, mutates the
input record object: afterwards the record holds exactly its original
keys minus `id`, `latitude_deg` and `longitude_deg` and minus every
key whose value was `null` or the empty string, other keys keeping
their values. -/
theorem C9_normalizer_effects (parseNum : Option JsVal → ℚ) (record : Props)
    (hnd : (record.map Prod.fst).Nodup) :
    (Hospitals.toGeoJsonFeature record).2 = record
    ∧ ∀ k, objGet (Airports.toGeoJsonFeature parseNum record).2 k
        = if k = "id" ∨ k = "latitude_deg" ∨ k = "longitude_deg" then none
          else match objGet record k with
               | some v => if v = JsVal.null ∨ v = JsVal.str "" then none else some v
               | none => none := by
  refine ⟨rfl, fun k => ?_⟩
  have hnd1 : (((objDelete record "id").map Prod.fst)).Nodup :=
    (keys_objDelete_sublist record "id").nodup hnd
  have hnd2 : (((objDelete (objDelete record "id") "latitude_deg").map Prod.fst)).Nodup :=
    (keys_objDelete_sublist _ "latitude_deg").nodup hnd1
  have hnd3 : (((objDelete (objDelete (objDelete record "id") "latitude_deg")
      "longitude_deg").map Prod.fst)).Nodup :=
    (keys_objDelete_sublist _ "longitude_deg").nodup hnd2
  show objGet ((objDelete (objDelete (objDelete record "id") "latitude_deg")
      "longitude_deg").filter
        (fun kv => !(kv.2 == JsVal.null || kv.2 == JsVal.str ""))) k = _
  rw [objGet_filter_val (objDelete (objDelete (objDelete record "id") "latitude_deg")
        "longitude_deg") (fun v => !(v == JsVal.null || v == JsVal.str "")) k hnd3,
    objGet_objDelete, objGet_objDelete, objGet_objDelete]
  by_cases hid : k = "id"
  · simp [hid]
  · by_cases hlat : k = "latitude_deg"
    · simp [hlat]
    · by_cases hlon : k = "longitude_deg"
      · simp [hlon]
      · simp only [hid, hlat, hlon, if_false, or_self, or_false, false_or]
        cases hv : objGet record k with
        | none => simp
        | some v =>
            by_cases hnull : v = JsVal.null ∨ v = JsVal.str ""
            · rcases hnull with h | h <;> simp [h]
            · push_neg at hnull
              simp [hnull.1, hnull.2, beq_iff_eq]

theorem C9_normalizer_effects_witness :
    (([("id", JsVal.str "7"), ("latitude_deg", .str "1"), ("longitude_deg", .str "2"),
        ("name", .str "A"), ("note", .str "")] : Props).map Prod.fst).Nodup
    ∧ ((Hospitals.toGeoJsonFeature
          [("id", .str "7"), ("latitude_deg", .str "1"), ("longitude_deg", .str "2"),
           ("name", .str "A"), ("note", .str "")]).2
        = [("id", .str "7"), ("latitude_deg", .str "1"), ("longitude_deg", .str "2"),
           ("name", .str "A"), ("note", .str "")]
      ∧ ∀ k, objGet (Airports.toGeoJsonFeature (fun _ => 0)
            [("id", .str "7"), ("latitude_deg", .str "1"), ("longitude_deg", .str "2"),
             ("name", .str "A"), ("note", .str "")]).2 k
          = if k = "id" ∨ k = "latitude_deg" ∨ k = "longitude_deg" then none
            else match objGet ([("id", .str "7"), ("latitude_deg", .str "1"),
                ("longitude_deg", .str "2"), ("name", .str "A"), ("note", .str "")] : Props) k with
                 | some v => if v = JsVal.null ∨ v = JsVal.str "" then none else some v
                 | none => none) :=
  ⟨by decide, C9_normalizer_effects (fun _ => 0) _ (by decide)⟩

/-- Claim C9, counterexample to the claim as stated: the airports
normalizer deletes keys from its input record — on this record the
properties object left behind after the call is `[("name", "A")]`, not
the original record. -/
theorem C9_counterexample :
    (Airports.toGeoJsonFeature (fun _ => 0)
        [("id", .str "7"), ("latitude_deg", .str "1"), ("longitude_deg", .str "2"),
         ("name", .str "A"), ("note", .str "")]).2
      = [("name", JsVal.str "A")]
    ∧ ([("name", JsVal.str "A")] : Props)
      ≠ [("id", .str "7"), ("latitude_deg", .str "1"), ("longitude_deg", .str "2"),
         ("name", .str "A"), ("note", .str "")] :=
  ⟨by decide, by decide⟩

/-! ### The paginated fetcher claims -/

theorem fetchGo_succ {α : Type} (oracle : Nat → Page α) (fuel : Nat) (st : FetchState α) :
    fetchGo oracle (fuel + 1) st
      = if (st.records ++ (oracle st.offset).results).length < (oracle st.offset).count
        then fetchGo oracle fuel ⟨st.records ++ (oracle st.offset).results,
               st.offset + (oracle st.offset).results.length⟩
        else some (st.records ++ (oracle st.offset).results) := rfl

theorem fetchGo_isSome {α : Type} (oracle : Nat → Page α) (C : Nat)
    (hcount : ∀ n, (oracle n).count = C) (hres : ∀ n, (oracle n).results ≠ []) :
    ∀ (fuel : Nat) (st : FetchState α), C ≤ st.records.length + fuel →
      (fetchGo oracle (fuel + 1) st).isSome := by
  intro fuel
  induction fuel with
  | zero =>
      intro st h
      have hc : ¬ (st.records ++ (oracle st.offset).results).length
          < (oracle st.offset).count := by
        rw [List.length_append, hcount st.offset]
        omega
      rw [fetchGo_succ, if_neg hc]
      rfl
  | succ g ih =>
      intro st h
      rw [fetchGo_succ]
      by_cases hc : (st.records ++ (oracle st.offset).results).length
          < (oracle st.offset).count
      · have hlen : 1 ≤ (oracle st.offset).results.length :=
          List.length_pos.mpr (hres st.offset)
        rw [if_pos hc]
        refine ih _ ?_
        simp only [List.length_append]
        omega
      · rw [if_neg hc]
        rfl

/-- Claim C10 (confirmed).  The paginated download loop terminates
whenever every page returns at least one record and the reported count
is consistent (fuel `count + 1` suffices); and whenever a page returns
an empty results list while fewer records than the reported count have
been collected, the loop state is unchanged and the loop never
terminates, reissuing the identical request forever. -/
theorem C10_fetcher_termination {α : Type} (oracle : Nat → Page α) :
    (∀ C, (∀ n, (oracle n).count = C) → (∀ n, (oracle n).results ≠ []) →
        (downloadHospitalList oracle (C + 1)).isSome)
    ∧ (∀ (st : FetchState α) (fuel : Nat), (oracle st.offset).results = [] →
        st.records.length < (oracle st.offset).count → fetchGo oracle fuel st = none) := by
  constructor
  · intro C hcount hres
    exact fetchGo_isSome oracle C hcount hres C ⟨[], 0⟩ (by simp)
  · intro st fuel hres0 hlt
    induction fuel with
    | zero => rfl
    | succ g ih =>
        rw [fetchGo_succ, hres0]
        simp only [List.append_nil, List.length_nil, Nat.add_zero]
        rw [if_pos hlt]
        exact ih

/-! ### Re-run lemmas -/

theorem objGet_buildLocations_aux :
    ∀ (fs : List Feature) (acc : Obj Geometry) (k : String),
      ((fs.map (fun f => getLocationString f.properties)).Nodup) →
      objGet (fs.foldl buildLocationsStep acc) k
        = (((fs.find? (fun f => getLocationString f.properties == k)).bind
              Feature.geometry).or (objGet acc k)) := by
  intro fs
  induction fs with
  | nil => intro acc k _; simp [Option.or]
  | cons f rest ih =>
      intro acc k hnd
      simp only [List.map_cons, List.nodup_cons] at hnd
      obtain ⟨hk, hndr⟩ := hnd
      simp only [List.foldl_cons]
      by_cases hkey : getLocationString f.properties = k
      · subst hkey
        rw [List.find?_cons_of_pos _ (by simp)]
        have hfind : rest.find?
            (fun x => getLocationString x.properties == getLocationString f.properties)
              = none := by
          rw [List.find?_eq_none]
          intro x hx hpx
          apply hk
          have he : getLocationString x.properties = getLocationString f.properties := by
            simpa using hpx
          rw [← he]
          exact List.mem_map.mpr ⟨x, hx, rfl⟩
        cases hg : f.geometry with
        | some g =>
            have hstep : buildLocationsStep acc f
                = objSet acc (getLocationString f.properties) g := by
              simp [buildLocationsStep, hg]
            rw [hstep, ih _ _ hndr, hfind]
            simp [Option.or, hg, objGet_objSet_self]
        | none =>
            have hstep : buildLocationsStep acc f = acc := by
              simp [buildLocationsStep, hg]
            rw [hstep, ih _ _ hndr, hfind]
            simp [Option.or, hg]
      · rw [List.find?_cons_of_neg _ (by simp [hkey])]
        cases hg : f.geometry with
        | some g =>
            have hstep : buildLocationsStep acc f
                = objSet acc (getLocationString f.properties) g := by
              simp [buildLocationsStep, hg]
            rw [hstep, ih _ _ hndr, objGet_objSet_ne _ _ _ _ hkey]
        | none =>
            have hstep : buildLocationsStep acc f = acc := by
              simp [buildLocationsStep, hg]
            rw [hstep, ih _ _ hndr]

theorem find?_key_unique :
    ∀ (l : List Feature) (i : Nat) (x : Feature), l[i]? = some x →
      ((l.map (fun f => getLocationString f.properties)).Nodup) →
      l.find? (fun y => getLocationString y.properties
          == getLocationString x.properties) = some x := by
  intro l
  induction l with
  | nil => intro i x hx; simp at hx
  | cons a rest ih =>
      intro i x hx hnd
      simp only [List.map_cons, List.nodup_cons] at hnd
      obtain ⟨ha, hndr⟩ := hnd
      cases i with
      | zero =>
          obtain rfl := Option.some.inj (by simpa using hx : some a = some x)
          exact List.find?_cons_of_pos _ (by simp)
      | succ j =>
          simp only [List.getElem?_cons_succ] at hx
          have hxmem : x ∈ rest := List.getElem?_mem hx
          have hne : (getLocationString a.properties
              == getLocationString x.properties) = false := by
            simp only [beq_eq_false_iff_ne, ne_eq]
            intro he
            exact ha (he ▸ List.mem_map.mpr ⟨x, hxmem, rfl⟩)
          rw [List.find?_cons, hne]
          exact ih j x hx hndr

theorem objGet_buildLocations_of_get? (out1 : List Feature) (n : Nat) (u : Feature)
    (hu : out1[n]? = some u)
    (hnd : (out1.map (fun f => getLocationString f.properties)).Nodup) :
    objGet (buildLocations out1) (getLocationString u.properties) = u.geometry := by
  unfold buildLocations
  rw [objGet_buildLocations_aux _ [] _ hnd]
  rw [find?_key_unique out1 n u hu hnd]
  simp [objGet, Option.or_none]

/-! ### Grouping lemmas -/

theorem groupByStep_some {α : Type} (sel : α → String) (acc : Obj (List α)) (item : α)
    (group : List α) (h : objGet acc (sel item) = some group) :
    groupByStep sel acc item = objSet acc (sel item) (group ++ [item]) := by
  simp only [groupByStep]
  rw [h]

theorem groupByStep_none {α : Type} (sel : α → String) (acc : Obj (List α)) (item : α)
    (h : objGet acc (sel item) = none) :
    groupByStep sel acc item = acc ++ [(sel item, [item])] := by
  simp only [groupByStep]
  rw [h]

theorem flatten_objSet {α : Type} (m : Obj (List α)) (k : String) (g v : List α)
    (h : objGet m k = some g) :
    List.Perm (((objSet m k v).map Prod.snd).flatten ++ g)
      ((m.map Prod.snd).flatten ++ v) := by
  induction m with
  | nil => simp [objGet] at h
  | cons kv rest ih =>
      obtain ⟨k1, g1⟩ := kv
      by_cases h1 : k1 = k
      · simp only [objGet, h1, if_true] at h
        obtain rfl := Option.some.inj h
        subst h1
        have hset : objSet ((k1, g1) :: rest) k1 v = (k1, v) :: rest := by
          simp [objSet]
        rw [hset]
        simp only [List.map_cons, List.flatten_cons]
        rw [List.append_assoc]
        have p1 : List.Perm (v ++ ((rest.map Prod.snd).flatten ++ g1))
            (((rest.map Prod.snd).flatten ++ g1) ++ v) := List.perm_append_comm
        have p2 : List.Perm (((rest.map Prod.snd).flatten ++ g1) ++ v)
            ((g1 ++ (rest.map Prod.snd).flatten) ++ v) :=
          List.Perm.append_right v List.perm_append_comm
        exact p1.trans p2
      · simp only [objGet, h1, if_false] at h
        have hset : objSet ((k1, g1) :: rest) k v = (k1, g1) :: objSet rest k v := by
          simp [objSet, h1]
        rw [hset]
        simp only [List.map_cons, List.flatten_cons]
        rw [List.append_assoc, List.append_assoc]
        exact List.Perm.append_left g1 (ih h)

theorem flatten_groupByStep {α : Type} (sel : α → String) (acc : Obj (List α)) (item : α) :
    List.Perm (((groupByStep sel acc item).map Prod.snd).flatten)
      ((acc.map Prod.snd).flatten ++ [item]) := by
  cases h : objGet acc (sel item) with
  | some group =>
      rw [groupByStep_some sel acc item group h]
      have h1 := flatten_objSet acc (sel item) group (group ++ [item]) h
      have h2 : List.Perm ((acc.map Prod.snd).flatten ++ (group ++ [item]))
          ((acc.map Prod.snd).flatten ++ ([item] ++ group)) :=
        List.Perm.append_left _ List.perm_append_comm
      nth_rewrite 2 [← List.append_assoc] at h2
      exact (List.perm_append_right_iff group).mp (h1.trans h2)
  | none =>
      rw [groupByStep_none sel acc item h]
      simp only [List.map_append, List.map_cons, List.map_nil, List.flatten_append,
        List.flatten_cons, List.flatten_nil, List.append_nil]
      exact List.Perm.refl _

theorem flatten_groupBy_aux {α : Type} (sel : α → String) :
    ∀ (l : List α) (acc : Obj (List α)),
      List.Perm (((l.foldl (groupByStep sel) acc).map Prod.snd).flatten)
        ((acc.map Prod.snd).flatten ++ l) := by
  intro l
  induction l with
  | nil => intro acc; simp
  | cons x l ih =>
      intro acc
      have p1 := ih (groupByStep sel acc x)
      have p2 := List.Perm.append_right l (flatten_groupByStep sel acc x)
      have p3 := p1.trans p2
      rw [List.append_assoc] at p3
      exact p3

theorem keys_groupBy_aux {α : Type} (sel : α → String) :
    ∀ (l : List α) (acc : Obj (List α)), ((acc.map Prod.fst).Nodup) →
      ((l.foldl (groupByStep sel) acc).map Prod.fst).Nodup := by
  intro l
  induction l with
  | nil => intro acc h; exact h
  | cons x l ih =>
      intro acc h
      refine ih _ ?_
      cases hk : objGet acc (sel x) with
      | some group =>
          rw [groupByStep_some sel acc x group hk,
            keys_objSet_of_mem acc _ _ (by rw [hk]; exact fun hc => Option.noConfusion hc)]
          exact h
      | none =>
          rw [groupByStep_none sel acc x hk]
          simp only [List.map_append, List.map_cons, List.map_nil]
          rw [List.nodup_append]
          refine ⟨h, List.nodup_singleton _, ?_⟩
          intro a ha hb
          simp only [List.mem_singleton] at hb
          subst hb
          exact (objGet_eq_none_iff acc (sel x)).mp hk ha

theorem mem_groupBy_aux {α : Type} (sel : α → String) :
    ∀ (l : List α) (acc : Obj (List α)),
      (∀ kv ∈ acc, ∀ x ∈ kv.2, sel x = kv.1) →
      ∀ kv ∈ l.foldl (groupByStep sel) acc, ∀ x ∈ kv.2, sel x = kv.1 := by
  intro l
  induction l with
  | nil => intro acc h; exact h
  | cons y l ih =>
      intro acc h
      refine ih _ ?_
      intro kv hkv x hx
      cases hk : objGet acc (sel y) with
      | some group =>
          rw [groupByStep_some sel acc y group hk] at hkv
          rcases mem_objSet acc (sel y) (group ++ [y]) kv hkv with h1 | h1
          · subst h1
            simp only at hx ⊢
            rcases List.mem_append.mp hx with h2 | h2
            · exact h (sel y, group) (objGet_mem acc (sel y) group hk) x h2
            · simp only [List.mem_singleton] at h2
              subst h2; rfl
          · exact h kv h1 x hx
      | none =>
          rw [groupByStep_none sel acc y hk] at hkv
          rcases List.mem_append.mp hkv with h1 | h1
          · exact h kv h1 x hx
          · simp only [List.mem_singleton] at h1
            subst h1
            simp only [List.mem_singleton] at hx
            subst hx; rfl

theorem entry_eq_of_fst_eq {α : Type} :
    ∀ (m : Obj α), ((m.map Prod.fst).Nodup) →
      ∀ kv1 ∈ m, ∀ kv2 ∈ m, kv1.1 = kv2.1 → kv1 = kv2 := by
  intro m
  induction m with
  | nil => intro _ kv1 h1; simp at h1
  | cons kv rest ih =>
      intro hnd kv1 h1 kv2 h2 heq
      simp only [List.map_cons, List.nodup_cons] at hnd
      obtain ⟨hk, hndr⟩ := hnd
      rcases List.mem_cons.mp h1 with e1 | e1 <;> rcases List.mem_cons.mp h2 with e2 | e2
      · rw [e1, e2]
      · exfalso
        subst e1
        exact hk (heq ▸ List.mem_map.mpr ⟨kv2, e2, rfl⟩)
      · exfalso
        subst e2
        exact hk (heq ▸ List.mem_map.mpr ⟨kv1, e1, rfl⟩)
      · exact ih hndr kv1 e1 kv2 e2 heq

theorem foldl_objSet_fresh {β : Type} (f : String → String) :
    ∀ (gs : Obj β) (disk : Obj β),
      ((gs.map (fun kv => f kv.1)).Nodup) →
      (∀ kv ∈ gs, f kv.1 ∉ disk.map Prod.fst) →
      gs.foldl (fun d kv => objSet d (f kv.1) kv.2) disk
        = disk ++ gs.map (fun kv => (f kv.1, kv.2)) := by
  intro gs
  induction gs with
  | nil => intro disk _ _; simp
  | cons kv gs ih =>
      intro disk hnd hfresh
      simp only [List.map_cons, List.nodup_cons] at hnd
      obtain ⟨hk, hndr⟩ := hnd
      simp only [List.foldl_cons]
      rw [objSet_of_not_mem disk (f kv.1) kv.2 (hfresh kv (List.mem_cons_self _ _))]
      rw [ih (disk ++ [(f kv.1, kv.2)]) hndr ?_]
      · simp
      · intro kv2 h2
        simp only [List.map_append, List.map_cons, List.map_nil, List.mem_append,
          List.mem_singleton]
        push_neg
        refine ⟨hfresh kv2 (List.mem_cons_of_mem _ h2), ?_⟩
        intro he
        exact hk (he ▸ List.mem_map.mpr ⟨kv2, h2, rfl⟩)

/-- Claim C7 (corrected).  Provided no two distinct values of the
grouping property collide after lowercasing, the union of the features
written across the per-value files equals exactly the string-valued
subset of the `all` output (each feature in exactly one file, no
duplicates, no omissions), each group holds exactly the features with
its value, group keys are pairwise distinct, and file names are the
lowercased values.  (Without the no-collision hypothesis, a later
group\'s file overwrites an earlier one\'s — see the counterexample.) -/
theorem C7_grouping_completeness (prop : String) (features : List Feature)
    (hinj : ∀ kv1 ∈ groupFeatures prop features, ∀ kv2 ∈ groupFeatures prop features,
        groupFileName kv1.1 = groupFileName kv2.1 → kv1.1 = kv2.1) :
    List.Perm (((writeGroupedFiles (groupFeatures prop features)).map Prod.snd).flatten)
        (features.filter (hasStringProp prop))
    ∧ (∀ kv ∈ groupFeatures prop features, ∀ f ∈ kv.2, propKey prop f = kv.1)
    ∧ ((groupFeatures prop features).map Prod.fst).Nodup
    ∧ (writeGroupedFiles (groupFeatures prop features)).map Prod.fst
        = (groupFeatures prop features).map (fun kv => groupFileName kv.1) := by
  have hkeys : ((groupFeatures prop features).map Prod.fst).Nodup :=
    keys_groupBy_aux _ _ [] (by simp)
  have hfnames : ((groupFeatures prop features).map (fun kv => groupFileName kv.1)).Nodup := by
    refine List.Nodup.map_on ?_ (hkeys.of_map Prod.fst)
    intro kv1 h1 kv2 h2 he
    exact entry_eq_of_fst_eq _ hkeys kv1 h1 kv2 h2 (hinj kv1 h1 kv2 h2 he)
  have hdisk : writeGroupedFiles (groupFeatures prop features)
      = (groupFeatures prop features).map (fun kv => (groupFileName kv.1, kv.2)) := by
    unfold writeGroupedFiles
    rw [foldl_objSet_fresh groupFileName _ [] hfnames (by simp)]
    simp
  refine ⟨?_, ?_, hkeys, ?_⟩
  · rw [hdisk]
    have hm : ((groupFeatures prop features).map
        (fun kv => (groupFileName kv.1, kv.2))).map Prod.snd
        = (groupFeatures prop features).map Prod.snd := by
      simp
    rw [hm]
    simpa using flatten_groupBy_aux (propKey prop) (features.filter (hasStringProp prop)) []
  · exact mem_groupBy_aux _ _ [] (by simp)
  · rw [hdisk]
    simp

theorem C7_grouping_completeness_witness :
    (∀ kv1 ∈ groupFeatures "state"
        [(⟨"1", [("state", .str "TX")], none⟩ : Feature),
         ⟨"2", [("state", .str "CA")], none⟩],
      ∀ kv2 ∈ groupFeatures "state"
        [(⟨"1", [("state", .str "TX")], none⟩ : Feature),
         ⟨"2", [("state", .str "CA")], none⟩],
      groupFileName kv1.1 = groupFileName kv2.1 → kv1.1 = kv2.1)
    ∧ List.Perm (((writeGroupedFiles (groupFeatures "state"
          [(⟨"1", [("state", .str "TX")], none⟩ : Feature),
           ⟨"2", [("state", .str "CA")], none⟩])).map Prod.snd).flatten)
        ([(⟨"1", [("state", .str "TX")], none⟩ : Feature),
          ⟨"2", [("state", .str "CA")], none⟩].filter (hasStringProp "state")) :=
  ⟨by decide,
   (C7_grouping_completeness "state"
     [⟨"1", [("state", .str "TX")], none⟩, ⟨"2", [("state", .str "CA")], none⟩]
     (by decide)).1⟩

/-- Claim C7, counterexample to the claim as stated: with values "TX"
and "tx" the two per-value files share the lowercased name
`tx.geojson`, the second write overwrites the first, and the union of
the written files loses the first feature — it is not a permutation of
the string-valued subset. -/
theorem C7_counterexample :
    ¬ List.Perm (((writeGroupedFiles (groupFeatures "state"
          [(⟨"1", [("state", .str "TX")], none⟩ : Feature),
           ⟨"2", [("state", .str "tx")], none⟩])).map Prod.snd).flatten)
        ([(⟨"1", [("state", .str "TX")], none⟩ : Feature),
          ⟨"2", [("state", .str "tx")], none⟩].filter (hasStringProp "state")) := by
  intro h
  exact absurd h.length_eq (by decide)

theorem C10_fetcher_termination_witness :
    (downloadHospitalList (fun _ => (⟨[()], 5⟩ : Page Unit)) 6).isSome
    ∧ fetchGo (fun _ => (⟨[], 5⟩ : Page Unit)) 3 ⟨[], 0⟩ = none :=
  ⟨(C10_fetcher_termination (fun _ => (⟨[()], 5⟩ : Page Unit))).1 5 (fun _ => rfl)
      (fun _ => by simp),
   (C10_fetcher_termination (fun _ => (⟨[], 5⟩ : Page Unit))).2 ⟨[], 0⟩ 3 rfl (by decide)⟩

/-- Pointwise description of a first Reconciler run: each incoming
feature reaches the output with only its geometry possibly changed,
an override hit is kept verbatim, and a feature that ends unresolved
despite no override hit was unresolved to begin with. -/
theorem reconcile_get? (ex1 : ExistingDataset) (oracle1 : Nat → HttpOutcome)
    (incoming : List Feature) (i : Nat) (f : Feature) (hf : incoming[i]? = some f) :
    ∃ og, (reconcile ex1 oracle1 incoming).1[i]? = some { f with geometry := og }
      ∧ (∀ go, objGet ex1.override f.id = some go → og = some go)
      ∧ (objGet ex1.override f.id = none → og = none → f.geometry = none) := by
  have hm : (applyExistingLocationsToIncomingData incoming ex1)[i]?
      = some { f with geometry := mergeGeo ex1 f } := by
    rw [applyExisting_eq_map_mergeGeo, List.getElem?_map, hf]; rfl
  obtain ⟨og, hgo, hpres⟩ := geocodeGo_get? oracle1
    (applyExistingLocationsToIncomingData incoming ex1) 0 i _ hm
  refine ⟨og, hgo, ?_, ?_⟩
  · intro go hov
    have hsome : ({ f with geometry := mergeGeo ex1 f} : Feature).geometry.isSome := by
      simp [mergeGeo, hov, Option.or]
    have := hpres hsome
    simp only at this
    rw [this]
    simp [mergeGeo, hov, Option.or]
  · intro hov hognone
    by_contra hngeo
    have hsome : ({ f with geometry := mergeGeo ex1 f} : Feature).geometry.isSome := by
      simp only [mergeGeo, hov, Option.or]
      cases hloc : objGet ex1.locations (getLocationString f.properties) with
      | some g => simp
      | none =>
          simp only
          cases hfg : f.geometry with
          | some g => simp
          | none => exact absurd hfg hngeo
    have := hpres hsome
    simp only at this
    rw [hognone] at this
    revert this
    simp only [mergeGeo, hov, Option.or]
    cases hloc : objGet ex1.locations (getLocationString f.properties) with
    | some g => simp
    | none =>
        simp only
        cases hfg : f.geometry with
        | some g => simp
        | none => exact fun _ => hngeo hfg

set_option maxHeartbeats 2000000 in
/-- Claim C4 (corrected).  Re-running the Reconciler on the same
incoming record set, with the first run's output as the existing
dataset and the same override map, reproduces the first run's geometry
assignments — provided no two incoming Features share a Location Key
and the second run's live geocode calls return no candidates ("no new
live-geocode results").  When the first run resolved every Feature,
the second run issues zero live calls. -/
theorem C4_rerun_idempotence (ex1 : ExistingDataset) (oracle1 oracle2 : Nat → HttpOutcome)
    (incoming : List Feature)
    (hkeys : (incoming.map (fun f => getLocationString f.properties)).Nodup)
    (hnores : ∀ n body, geocodeSingle (oracle2 n) = .ok body → body.items.getD [] = []) :
    (reconcile ⟨some (reconcile ex1 oracle1 incoming).1,
        buildLocations (reconcile ex1 oracle1 incoming).1, ex1.override⟩
      oracle2 incoming).1 = (reconcile ex1 oracle1 incoming).1
    ∧ ((∀ f ∈ (reconcile ex1 oracle1 incoming).1, f.geometry.isSome) →
        (reconcile ⟨some (reconcile ex1 oracle1 incoming).1,
            buildLocations (reconcile ex1 oracle1 incoming).1, ex1.override⟩
          oracle2 incoming).2 = 0) := by
  have hlen1 : (reconcile ex1 oracle1 incoming).1.length = incoming.length := by
    show (geocodeGo oracle1 (applyExistingLocationsToIncomingData incoming ex1) 0).1.length = _
    rw [geocodeGo_length, applyExisting_length]
  have hmapkeys : (reconcile ex1 oracle1 incoming).1.map
        (fun f => getLocationString f.properties)
      = incoming.map (fun f => getLocationString f.properties) := by
    apply List.ext_getElem?
    intro n
    rw [List.getElem?_map, List.getElem?_map]
    cases hn : incoming[n]? with
    | none =>
        have hge : incoming.length ≤ n := List.getElem?_eq_none_iff.mp hn
        rw [List.getElem?_eq_none (by omega)]
    | some f =>
        obtain ⟨og, hout, _, _⟩ := reconcile_get? ex1 oracle1 incoming n f hn
        rw [hout]
        rfl
  have hnod1 : ((reconcile ex1 oracle1 incoming).1.map
      (fun f => getLocationString f.properties)).Nodup := hmapkeys ▸ hkeys
  have hmerged2 : applyExistingLocationsToIncomingData incoming
      ⟨some (reconcile ex1 oracle1 incoming).1,
        buildLocations (reconcile ex1 oracle1 incoming).1, ex1.override⟩
      = (reconcile ex1 oracle1 incoming).1 := by
    apply List.ext_getElem?
    intro n
    rw [applyExisting_eq_map_mergeGeo, List.getElem?_map]
    cases hn : incoming[n]? with
    | none =>
        have hlen : incoming.length ≤ n := List.getElem?_eq_none_iff.mp hn
        rw [List.getElem?_eq_none (by omega)]
        rfl
    | some f =>
        obtain ⟨og, hout, hovkeep, hnone⟩ := reconcile_get? ex1 oracle1 incoming n f hn
        rw [hout]
        simp only [Option.map_some', Option.some.injEq, Feature.mk.injEq, true_and]
        have hbuild : objGet (buildLocations (reconcile ex1 oracle1 incoming).1)
            (getLocationString f.properties) = og :=
          objGet_buildLocations_of_get? (reconcile ex1 oracle1 incoming).1 n
            { f with geometry := og } hout hnod1
        cases hov : objGet ex1.override f.id with
        | some go =>
            rw [hovkeep go hov]
            simp [mergeGeo, hov, Option.or]
        | none =>
            cases hog : og with
            | some g => simp [mergeGeo, hov, Option.or, hbuild, hog]
            | none =>
                have hfg : f.geometry = none := hnone hov hog
                simp [mergeGeo, hov, Option.or, hbuild, hog, hfg]
  refine ⟨?_, ?_⟩
  · show (geocodeGo oracle2 (applyExistingLocationsToIncomingData incoming
        ⟨some (reconcile ex1 oracle1 incoming).1,
          buildLocations (reconcile ex1 oracle1 incoming).1, ex1.override⟩) 0).1
      = (reconcile ex1 oracle1 incoming).1
    rw [geocodeGo_no_candidates oracle2 hnores _ 0, hmerged2]
  · intro hsome
    have hall : ∀ x ∈ applyExistingLocationsToIncomingData incoming
        ⟨some (reconcile ex1 oracle1 incoming).1,
          buildLocations (reconcile ex1 oracle1 incoming).1, ex1.override⟩,
        x.geometry.isSome := by
      rw [hmerged2]
      exact hsome
    show (geocodeGo oracle2 (applyExistingLocationsToIncomingData incoming
        ⟨some (reconcile ex1 oracle1 incoming).1,
          buildLocations (reconcile ex1 oracle1 incoming).1, ex1.override⟩) 0).2 = 0
    rw [geocodeGo_all_some oracle2 _ 0 hall]

theorem C4_rerun_idempotence_witness :
    ((([⟨"A", [("address", JsVal.str "1")], none⟩] : List Feature).map
          (fun f => getLocationString f.properties)).Nodup)
    ∧ (reconcile ⟨some (reconcile ⟨none, [], []⟩
            (fun _ => HttpOutcome.resp 200 ⟨some [⟨2, 3⟩]⟩)
            [⟨"A", [("address", JsVal.str "1")], none⟩]).1,
          buildLocations (reconcile ⟨none, [], []⟩
            (fun _ => HttpOutcome.resp 200 ⟨some [⟨2, 3⟩]⟩)
            [⟨"A", [("address", JsVal.str "1")], none⟩]).1,
          (⟨none, [], []⟩ : ExistingDataset).override⟩
          (fun _ => HttpOutcome.resp 200 ⟨some []⟩)
          [⟨"A", [("address", JsVal.str "1")], none⟩]).1
        = (reconcile ⟨none, [], []⟩ (fun _ => HttpOutcome.resp 200 ⟨some [⟨2, 3⟩]⟩)
            [⟨"A", [("address", JsVal.str "1")], none⟩]).1 :=
  ⟨by decide,
   (C4_rerun_idempotence ⟨none, [], []⟩
     (fun _ => HttpOutcome.resp 200 ⟨some [⟨2, 3⟩]⟩)
     (fun _ => HttpOutcome.resp 200 ⟨some []⟩)
     [⟨"A", [("address", JsVal.str "1")], none⟩]
     (by decide)
     (fun n body hb => by
       have hbody : body = ⟨some []⟩ := by simpa [geocodeSingle] using hb.symm
       subst hbody
       rfl)).1⟩

/-- Claim C4, counterexample to the claim as stated: two incoming
Features share a Location Key; the first run resolves the first via a
live geocode and is rate-limited on the second, which stays null.  The
second run — same records, the first run's output as the existing
dataset, the same (empty) override map, and zero live calls issued —
assigns the second Feature the first one's geometry via the Location
Key index, so its geometry differs from the first run's. -/
theorem C4_counterexample :
    (reconcile ⟨some (reconcile ⟨none, [], []⟩
          (fun n => if n = 0 then HttpOutcome.resp 200 ⟨some [⟨2, 3⟩]⟩
            else HttpOutcome.resp 429 ⟨some []⟩)
          [⟨"A", [("address", JsVal.str "1")], none⟩,
           ⟨"B", [("address", JsVal.str "1")], none⟩]).1,
        buildLocations (reconcile ⟨none, [], []⟩
          (fun n => if n = 0 then HttpOutcome.resp 200 ⟨some [⟨2, 3⟩]⟩
            else HttpOutcome.resp 429 ⟨some []⟩)
          [⟨"A", [("address", JsVal.str "1")], none⟩,
           ⟨"B", [("address", JsVal.str "1")], none⟩]).1, []⟩
        (fun _ => HttpOutcome.resp 200 ⟨some []⟩)
        [⟨"A", [("address", JsVal.str "1")], none⟩,
         ⟨"B", [("address", JsVal.str "1")], none⟩]).2 = 0
    ∧ (reconcile ⟨some (reconcile ⟨none, [], []⟩
          (fun n => if n = 0 then HttpOutcome.resp 200 ⟨some [⟨2, 3⟩]⟩
            else HttpOutcome.resp 429 ⟨some []⟩)
          [⟨"A", [("address", JsVal.str "1")], none⟩,
           ⟨"B", [("address", JsVal.str "1")], none⟩]).1,
        buildLocations (reconcile ⟨none, [], []⟩
          (fun n => if n = 0 then HttpOutcome.resp 200 ⟨some [⟨2, 3⟩]⟩
            else HttpOutcome.resp 429 ⟨some []⟩)
          [⟨"A", [("address", JsVal.str "1")], none⟩,
           ⟨"B", [("address", JsVal.str "1")], none⟩]).1, []⟩
        (fun _ => HttpOutcome.resp 200 ⟨some []⟩)
        [⟨"A", [("address", JsVal.str "1")], none⟩,
         ⟨"B", [("address", JsVal.str "1")], none⟩]).1
      ≠ (reconcile ⟨none, [], []⟩
          (fun n => if n = 0 then HttpOutcome.resp 200 ⟨some [⟨2, 3⟩]⟩
            else HttpOutcome.resp 429 ⟨some []⟩)
          [⟨"A", [("address", JsVal.str "1")], none⟩,
           ⟨"B", [("address", JsVal.str "1")], none⟩]).1 :=
  ⟨by decide, by decide⟩

end DataScripts
